import Mathlib

/-!
Verification of the sequential message-processing pipeline of the
telegram-note-bot repository (src/index.ts), as a shallow embedding in Lean.

Impure inputs of the TypeScript code (wall-clock time, `Math.random()`,
network and filesystem outcomes, the rendering by the host timezone of an epoch
timestamp into local hours/minutes/seconds) are hoisted into explicit
parameters.  JavaScript string truthiness, template-literal coercion of
`undefined`, and the relevant fragments of `path.extname` / `path.basename`
are modelled explicitly.
-/

/-- JavaScript truthiness of an optional string: `undefined` and `""` are
falsy, every other string is truthy. -/
def jsTruthy : Option String → Bool
  | none => false
  | some s => !s.isEmpty

/-- Template-literal rendering of a possibly-`undefined` string:
an absent value prints as the literal text `undefined`. -/
def jsUndef (o : Option String) : String :=
  o.getD "undefined"

/-- JavaScript `a || b` on strings: empty string is falsy. -/
def jsOrS (a b : String) : String :=
  if a.isEmpty then b else a

/-- JavaScript `o || b` where `o` is an optional string
(`undefined` or `""` falls back to `b`). -/
def jsOrOpt (o : Option String) (b : String) : String :=
  if jsTruthy o then o.getD "" else b

/-- `n.toString().padStart(2, '0')` for a natural number
(source: getTimestamp, src/index.ts lines 84-90). -/
def pad2 (n : Nat) : String :=
  let s := Nat.repr n
  if s.length < 2 then "0" ++ s else s

/-- A local wall-clock time of day, the result of `Date#getHours`,
`Date#getMinutes`, `Date#getSeconds` on the message date (or on `new Date()`
when the message carries no date); the epoch-to-local conversion depends on
the host timezone and is therefore a parameter of the embedding. -/
structure HMS where
  hh : Nat
  mm : Nat
  ss : Nat
deriving DecidableEq

/-- `getTimestamp` (src/index.ts lines 84-90): zero-padded `HH:MM:SS`. -/
def getTimestamp (t : HMS) : String :=
  pad2 t.hh ++ ":" ++ pad2 t.mm ++ ":" ++ pad2 t.ss

/-- A local calendar date as used by `getDayNotesFile`:
`Date#getDate` (day of month) and `Date#getMonth` (0-based month). -/
structure LocalDate where
  day : Nat
  month : Fin 12
deriving DecidableEq

/-- `MONTH_NAMES` (src/index.ts line 82). -/
def MONTH_NAMES : List String :=
  ["jan", "feb", "mar", "apr", "may", "jun", "jul", "aug", "sep", "oct", "nov", "dec"]

/-- `MONTH_NAMES[now.getMonth()]`. -/
def monthAbbrev (i : Fin 12) : String :=
  MONTH_NAMES.get ⟨i.val, i.isLt⟩

/-- `getDayNotesFile` (src/index.ts lines 92-101): the day-file path
`notes/⟨day⟩-⟨month⟩.md`, computed from the current local date only.
`NOTES_DIR` is modelled as the relative directory `notes`. -/
def getDayNotesFile (d : LocalDate) : String :=
  "notes/" ++ Nat.repr d.day ++ "-" ++ monthAbbrev d.month ++ ".md"

/-- The character class of the sanitization regex `[^a-z0-9]` with the `i`
flag: ASCII letters (either case) and ASCII digits. -/
def isAlnumAscii (c : Char) : Bool :=
  ('a' ≤ c && c ≤ 'z') || ('A' ≤ c && c ≤ 'Z') || ('0' ≤ c && c ≤ '9')

/-- `baseName.replace(/[^a-z0-9]/gi, '_')` (src/index.ts line 115). -/
def sanitizeName (s : String) : String :=
  String.mk (s.data.map (fun c => if isAlnumAscii c then c else '_'))

/-- The base-36 digit characters used by `Number#toString(36)`. -/
def base36Char (d : Fin 36) : Char :=
  if d.val < 10 then Char.ofNat ('0'.toNat + d.val)
  else Char.ofNat ('a'.toNat + (d.val - 10))

/-- `Math.random().toString(36).substring(2, 8)` (src/index.ts line 114),
parametrized by the list of fractional base-36 digits in the string rendering
of the random double.  `toString(36)` prints `0.` followed by the digits (or
just `0` when the value is `0`), so `substring(2, 8)` keeps at most the first
six digits; the digit list can be shorter than six (for example the possible
`Math.random()` value `0.0625` prints as `0.29`, giving the two-character
token `29`), in which case the token is shorter than six characters. -/
def randToken (rand : List (Fin 36)) : String :=
  String.mk ((rand.map base36Char).take 6)

/-- `generateFileName` (src/index.ts lines 112-117):
`Date.now()` and the random token are explicit parameters. -/
def generateFileName (nowMs : Nat) (rand : List (Fin 36))
    (baseName : String) (extension : String) : String :=
  Nat.repr nowMs ++ "_" ++ randToken rand ++ "_" ++
    (if baseName.isEmpty then "file" else sanitizeName baseName) ++ extension

/-- Index of the last `.` in a character list, if any. -/
def lastDotIdx (cs : List Char) : Option Nat :=
  (List.range cs.length).foldl
    (fun acc i => if cs.getD i ' ' = '.' then some i else acc) none

/-- `path.extname` restricted to plain file names (no path separators), as
used on declared attachment filenames: the suffix starting at the last dot,
except that a name with no dot, or whose only dot is its first character
(a hidden file such as `.bashrc`), has no extension. -/
def jsExtname (s : String) : String :=
  match lastDotIdx s.data with
  | none => ""
  | some 0 => ""
  | some i => String.mk (s.data.drop i)

/-- `path.basename(name, ext)` restricted to plain file names: strips a
trailing occurrence of `ext` unless the name is exactly `ext` (the
ends-with test is phrased on the character lists). -/
def jsBasename (s : String) (ext : String) : String :=
  if !ext.isEmpty && s ≠ ext
      && decide (s.data.drop (s.data.length - ext.data.length) = ext.data) then
    String.mk (s.data.take (s.data.length - ext.data.length))
  else s

/-- The extension chosen for a document attachment (src/index.ts line 199). -/
def docExt (fileName : Option String) : String :=
  if jsTruthy fileName then jsExtname (fileName.getD "") else ""

/-- The base name chosen for a document attachment (src/index.ts line 200). -/
def docBase (fileName : Option String) : String :=
  if jsTruthy fileName then jsBasename (fileName.getD "") (docExt fileName) else "document"

/-- The stored filename generated for a document attachment
(src/index.ts line 201): the extension falls back to `.bin` when empty. -/
def docFileName (nowMs : Nat) (rand : List (Fin 36)) (fileName : Option String) : String :=
  generateFileName nowMs rand (docBase fileName) (jsOrS (docExt fileName) ".bin")

/-- The extension chosen for an audio attachment (src/index.ts line 214). -/
def audioExt (fileName : Option String) : String :=
  if jsTruthy fileName then jsExtname (fileName.getD "") else ".mp3"

/-- The base name chosen for an audio attachment (src/index.ts line 215). -/
def audioBase (fileName : Option String) : String :=
  if jsTruthy fileName then jsBasename (fileName.getD "") (audioExt fileName) else "audio"

/-- The stored filename generated for an audio attachment (src/index.ts line 216). -/
def audioFileName (nowMs : Nat) (rand : List (Fin 36)) (fileName : Option String) : String :=
  generateFileName nowMs rand (audioBase fileName) (audioExt fileName)

/-- The distinguishable ways a single attachment download can go, matching
the control paths of `downloadFile` (src/index.ts lines 119-145):
* `resolveFail` — `bot.telegram.getFileLink` rejects; caught by the
  surrounding try/catch.
* `syncThrow` — the promise executor throws synchronously (for example
  `fs.createWriteStream` rejecting its argument), auto-rejecting the
  promise; caught by the surrounding try/catch.
* `requestError` — the https request emits `error`; the handler unlinks the
  partial file and rejects the promise; caught by the surrounding try/catch.
* `streamError` — the destination write stream emits `error` (a filesystem
  failure while opening or writing).  The source registers no listener for
  this event, so neither `resolve` nor `reject` is ever called.
* `success` — the transfer finishes. -/
inductive FetchOutcome
  | resolveFail
  | syncThrow
  | requestError
  | streamError
  | success
deriving DecidableEq

/-- Observable result of one `downloadFile` call.
`returned = some r` means the promise settled and the function returned `r`
(`r = none` is the JS `null`); `returned = none` means the call never
returns normally (the unhandled `streamError` path).  `fileOnDisk` records
whether a (possibly partial) file remains in the attachments directory
afterwards. -/
structure DLResult where
  returned : Option (Option String)
  fileOnDisk : Bool
deriving DecidableEq

/-- `downloadFile` (src/index.ts lines 119-145) as a function of the
environment outcome and the generated target filename. -/
def downloadFile (outcome : FetchOutcome) (fileName : String) : DLResult :=
  match outcome with
  | .resolveFail => ⟨some none, false⟩
  | .syncThrow => ⟨some none, false⟩
  | .requestError => ⟨some none, false⟩
  | .streamError => ⟨none, true⟩
  | .success => ⟨some (some fileName), true⟩

/-- `message.forward_from` payload (src/index.ts lines 44-48). -/
structure ForwardUser where
  username : Option String
  firstName : Option String
deriving DecidableEq

/-- `message.forward_from_chat` payload. -/
structure ForwardChat where
  title : Option String
deriving DecidableEq

/-- Forward-provenance metadata of a message (src/index.ts lines 44-48). -/
structure ForwardMeta where
  forward_from : Option ForwardUser
  forward_from_chat : Option ForwardChat
  forward_sender_name : Option String
deriving DecidableEq

/-- `formatForwardInfo` (src/index.ts lines 147-164).  Objects are truthy
whenever present; strings are truthy when nonempty; an absent `first_name`
or `title` renders as the literal text `undefined` under template-literal
coercion. -/
def formatForwardInfo (m : ForwardMeta) : String :=
  match m.forward_from with
  | some u =>
    let forwardedFrom :=
      if jsTruthy u.username then "@" ++ u.username.getD "" else jsUndef u.firstName
    " - Forwarded from " ++ forwardedFrom
  | none =>
    match m.forward_from_chat with
    | some c => " - Forwarded from " ++ jsUndef c.title
    | none =>
      match m.forward_sender_name with
      | some s => if s.isEmpty then "" else " - Forwarded from " ++ s
      | none => ""

/-- Display-text resolution for forward provenance as worded by the
specification (spec §3): precedence named user > named chat > free-text
sender name, and for a named user `@username` when the username is present,
else the first name.  Used to compare `formatForwardInfo` against the
claimed behaviour. -/
def provenanceDisplaySpec (m : ForwardMeta) : Option String :=
  match m.forward_from with
  | some u =>
    some (match u.username with
      | some un => "@" ++ un
      | none => u.firstName.getD "")
  | none =>
    match m.forward_from_chat with
    | some c => some (c.title.getD "")
    | none => m.forward_sender_name

/-- Well-formedness of forward metadata matching the shapes the claim about
provenance speaks about: populated string fields are nonempty, a named user
without a username has a first name, and a named chat has a title. -/
def forwardWF (m : ForwardMeta) : Bool :=
  (match m.forward_from with
   | some u =>
     u.username ≠ some "" &&
       (match u.username with
        | none => u.firstName.isSome
        | some _ => true)
   | none => true) &&
  (match m.forward_from_chat with
   | some c => c.title.isSome
   | none => true) &&
  m.forward_sender_name ≠ some ""

/-- `message.document` payload (src/index.ts line 54). -/
structure TgDocument where
  file_id : String
  file_name : Option String
deriving DecidableEq

/-- `message.audio` payload (src/index.ts line 56). -/
structure TgAudio where
  file_id : String
  file_name : Option String
deriving DecidableEq

/-- The incoming message payload (src/index.ts lines 50-61).  `photo` is the
list of resolution-variant file ids in ascending resolution order (absent
models as `[]`); single-file media carry just their file id.  The raw `date`
field (seconds since epoch) is carried for fidelity; its rendering into
local time lives in the processing environment. -/
structure Msg where
  text : Option String
  caption : Option String
  photo : List String
  document : Option TgDocument
  video : Option String
  audio : Option TgAudio
  voice : Option String
  video_note : Option String
  fwd : ForwardMeta
  date : Option Nat
deriving DecidableEq

/-- Externally visible actions of processing one message. -/
inductive Effect
  | fetch (fileId : String)
  | fileAppend (path : String) (content : String)
  | reply (text : String)
deriving DecidableEq

/-- An entry of the `attachments` array built by `processMessage`
(src/index.ts lines 38-42). -/
structure AttachmentEntry where
  name : String
  type : String
  originalName : Option String
deriving DecidableEq

/-- One iteration of the attachment-rendering loop
(src/index.ts lines 235-243): `att.originalName || att.name` is the display
name; photo, video and video-note entries render as image embeds, the rest
as link lines annotated with the kind. -/
def attachmentLine (att : AttachmentEntry) : String :=
  let displayName := jsOrOpt att.originalName att.name
  if att.type = "Photo" || att.type = "Video" || att.type = "Video Note" then
    "![" ++ displayName ++ "](../attachments/" ++ att.name ++ ")\n"
  else
    "- [" ++ displayName ++ "](../attachments/" ++ att.name ++ ") _(" ++ att.type ++ ")_\n"

/-- Environment of a single `downloadFile` call site: the `Date.now()` value
and random digits consumed by `generateFileName`, and the fate of the download. -/
structure FetchEnv where
  nowMs : Nat
  rand : List (Fin 36)
  outcome : FetchOutcome
deriving DecidableEq

/-- One conditional download step of `processMessage`
(one of the six `if`-blocks in src/index.ts lines 190-231). -/
structure Job where
  pres : Bool
  fid : String
  fname : String
  outcome : FetchOutcome
  typ : String
  orig : Option String
deriving DecidableEq

/-- Accumulator of the sequential attachment phase: the `attachments` array
and the effect trace so far. -/
structure DlAcc where
  atts : List AttachmentEntry
  effs : List Effect
deriving DecidableEq

/-- Execute one `if (kind in message) { ... await downloadFile ... }` block:
when the media kind is present, the download is awaited; `none` models the
awaited promise never settling (unhandled stream error), which abandons the
rest of `processMessage`.  A download that returned `null` pushes nothing
(`if (saved)` guard); a successful one pushes its attachment entry. -/
def dlStep (j : Job) (acc : DlAcc) : Option DlAcc :=
  if j.pres then
    match (downloadFile j.outcome j.fname).returned with
    | none => none
    | some saved =>
      some ⟨acc.atts ++ (match saved with
              | some s => [⟨s, j.typ, j.orig⟩]
              | none => []),
            acc.effs ++ [Effect.fetch j.fid]⟩
  else some acc

/-- Run the six download blocks in declaration order, stopping if one never
returns. -/
def runJobs : List Job → DlAcc → Option DlAcc
  | [], acc => some acc
  | j :: js, acc =>
    match dlStep j acc with
    | none => none
    | some acc₂ => runJobs js acc₂

/-- Per-message processing environment: all impure values consumed by one
`processMessage` run. -/
structure ProcEnv where
  hms : HMS
  procDate : LocalDate
  photoE : FetchEnv
  docE : FetchEnv
  videoE : FetchEnv
  audioE : FetchEnv
  voiceE : FetchEnv
  vnoteE : FetchEnv
  appendOk : Bool
  replyOk : Bool
deriving DecidableEq

/-- The six download blocks of `processMessage` (src/index.ts lines
190-231) in declaration order: photo (highest-resolution variant, the last
list element), document, video, audio, voice, video note. -/
def jobsOf (msg : Msg) (env : ProcEnv) : List Job :=
  [ ⟨!msg.photo.isEmpty, (msg.photo.getLast?).getD "",
      generateFileName env.photoE.nowMs env.photoE.rand "photo" ".jpg",
      env.photoE.outcome, "Photo", none⟩,
    ⟨msg.document.isSome, (msg.document.map TgDocument.file_id).getD "",
      docFileName env.docE.nowMs env.docE.rand (msg.document.bind TgDocument.file_name),
      env.docE.outcome, "Document",
      some (jsOrOpt (msg.document.bind TgDocument.file_name)
        (docBase (msg.document.bind TgDocument.file_name)))⟩,
    ⟨msg.video.isSome, msg.video.getD "",
      generateFileName env.videoE.nowMs env.videoE.rand "video" ".mp4",
      env.videoE.outcome, "Video", none⟩,
    ⟨msg.audio.isSome, (msg.audio.map TgAudio.file_id).getD "",
      audioFileName env.audioE.nowMs env.audioE.rand (msg.audio.bind TgAudio.file_name),
      env.audioE.outcome, "Audio",
      some (jsOrOpt (msg.audio.bind TgAudio.file_name)
        (audioBase (msg.audio.bind TgAudio.file_name)))⟩,
    ⟨msg.voice.isSome, msg.voice.getD "",
      generateFileName env.voiceE.nowMs env.voiceE.rand "voice" ".ogg",
      env.voiceE.outcome, "Voice", none⟩,
    ⟨msg.video_note.isSome, msg.video_note.getD "",
      generateFileName env.vnoteE.nowMs env.vnoteE.rand "video_note" ".mp4",
      env.vnoteE.outcome, "Video Note", none⟩ ]

/-- How one `processMessage` run ends:
* `ok` — ran to completion (fragment built, append attempted, reply sent);
* `thrown` — the final `await ctx.reply` rejected, so the async function
  rejected after the append step; the caller in `processQueue` does not
  catch this;
* `hung` — an awaited download promise never settled, so the run never
  finishes (and the drain loop never resumes). -/
inductive PMOutcome
  | ok (fragment : String) (effects : List Effect)
  | thrown (fragment : String) (effects : List Effect)
  | hung
deriving DecidableEq

/-- `processMessage` (src/index.ts lines 166-252). -/
def processMessage (msg : Msg) (env : ProcEnv) : PMOutcome :=
  let header := "\n---\n" ++ "**" ++ getTimestamp env.hms ++ "**" ++
    formatForwardInfo msg.fwd ++ "\n\n"
  let body :=
    if jsTruthy msg.text then msg.text.getD "" ++ "\n"
    else if jsTruthy msg.caption then msg.caption.getD "" ++ "\n"
    else ""
  match runJobs (jobsOf msg env) ⟨[], []⟩ with
  | none => .hung
  | some acc =>
    let attSection :=
      if acc.atts.isEmpty then ""
      else "\n**Attachments:**\n" ++ String.join (acc.atts.map attachmentLine)
    let fragment := header ++ body ++ attSection ++ "\n---\n"
    let effs := acc.effs ++
      (if env.appendOk then
        [Effect.fileAppend (getDayNotesFile env.procDate) (fragment ++ "\n")]
      else [])
    if env.replyOk then .ok fragment (effs ++ [Effect.reply "✅ Saved to notes!"])
    else .thrown fragment effs

/-- The markdown fragment a `processMessage` run built, when it got that far. -/
def fragmentOf : PMOutcome → Option String
  | .ok f _ => some f
  | .thrown f _ => some f
  | .hung => none

/-- The effect trace of a `processMessage` run. -/
def effsOf : PMOutcome → List Effect
  | .ok _ e => e
  | .thrown _ e => e
  | .hung => []

/-- The attachments array built by the download phase, when it completed. -/
def attsOf (msg : Msg) (env : ProcEnv) : Option (List AttachmentEntry) :=
  (runJobs (jobsOf msg env) ⟨[], []⟩).map DlAcc.atts

/-- An element of the dispatch queue: the message of the update together with the
impure values its processing will consume. -/
structure QItem where
  msg : Msg
  env : ProcEnv
deriving DecidableEq

/-- Events driving the handler and drain loop (src/index.ts lines 70-80 and
254-274): `arrive sender item` is one invocation of the message
handler with the stringified sender id (`none` when the update carries no
sender), and `finish` is the settlement of the currently awaited
`processMessage` promise. -/
inductive QEvent
  | arrive (sender : Option String) (item : QItem)
  | finish
deriving DecidableEq

/-- Global mutable state of the dispatch machinery:
`queue` is `messageQueue`, `busy` is `isProcessing`, `inFlight` is the
message currently awaited inside the drain loop (at most one, an `Option` by
construction, because `processQueue` awaits each `processMessage` before
shifting the next), `dones` lists the items whose processing ran (in order),
and `log` is the concatenated effect trace of those runs. -/
structure QState where
  queue : List QItem
  busy : Bool
  inFlight : Option QItem
  dones : List QItem
  log : List Effect
deriving DecidableEq

/-- The effect trace contributed by processing one item. -/
def itemEffects (it : QItem) : List Effect :=
  effsOf (processMessage it.msg it.env)

/-- `processQueue()` (src/index.ts lines 70-80) called synchronously at the
end of the handler: a no-op while a drain loop is active; otherwise marks
the loop active and shifts the oldest buffered message into flight. -/
def startDrain (s : QState) : QState :=
  if s.busy then s
  else
    match s.queue with
    | [] => s
    | it :: rest => { s with busy := true, inFlight := some it, queue := rest }

/-- One transition of the dispatch machinery.
`arrive`: the handler (src/index.ts lines 254-274) drops the update unless
the sender id is present and string-equal to the configured allowed id;
otherwise it pushes the message and calls `processQueue()`.
`finish`: the awaited `processMessage` settles.  On normal completion the
loop body records the effects and synchronously shifts the next buffered
message (or clears `isProcessing` when the buffer is empty).  On rejection
(`thrown`) the async `processQueue` function aborts: the effects up to the
rejection happened, but `isProcessing` is never reset.  A `hung` run never
settles, so `finish` never fires for it. -/
def qstep (allowed : String) (s : QState) : QEvent → QState
  | .arrive sender it =>
    if sender = some allowed then startDrain { s with queue := s.queue ++ [it] } else s
  | .finish =>
    match s.inFlight with
    | none => s
    | some it =>
      match processMessage it.msg it.env with
      | .hung => s
      | .ok _ fx =>
        let s₂ : QState :=
          { queue := s.queue, busy := s.busy, inFlight := none,
            dones := s.dones ++ [it], log := s.log ++ fx }
        match s₂.queue with
        | [] => { s₂ with busy := false }
        | it₂ :: rest => { s₂ with inFlight := some it₂, queue := rest }
      | .thrown _ fx =>
        { queue := s.queue, busy := s.busy, inFlight := none,
          dones := s.dones ++ [it], log := s.log ++ fx }

/-- Run a sequence of events from a state. -/
def runTrace (allowed : String) : QState → List QEvent → QState
  | s, [] => s
  | s, e :: es => runTrace allowed (qstep allowed s e) es

/-- The empty initial state (module load, src/index.ts lines 67-68). -/
def initQState : QState :=
  ⟨[], false, none, [], []⟩

/-- The authorized messages of a trace, in arrival (enqueue) order. -/
def arrivalsOf (allowed : String) : List QEvent → List QItem
  | [] => []
  | .arrive sender it :: es =>
    (if sender = some allowed then [it] else []) ++ arrivalsOf allowed es
  | .finish :: es => arrivalsOf allowed es

/-- A processing environment with no media downloads pending, a successful
archive append, and a chosen reply fate: used for concrete runs. -/
def plainEnv (replyOk : Bool) : ProcEnv :=
  ⟨⟨1, 2, 3⟩, ⟨7, ⟨9, by decide⟩⟩,
   ⟨0, [], .success⟩, ⟨0, [], .success⟩, ⟨0, [], .success⟩,
   ⟨0, [], .success⟩, ⟨0, [], .success⟩, ⟨0, [], .success⟩,
   true, replyOk⟩

/-- A text-only message with no forward provenance. -/
def textOnlyMsg (t : String) : Msg :=
  ⟨some t, none, [], none, none, none, none, none, ⟨none, none, none⟩, some 1700000000⟩

/-- Concrete queue item whose processing rejects: text message, but the
acknowledgment reply throws. -/
def itemA : QItem :=
  ⟨textOnlyMsg "first", plainEnv false⟩

/-- Concrete queue item that would process cleanly, enqueued after
`itemA`. -/
def itemB : QItem :=
  ⟨textOnlyMsg "second", plainEnv true⟩

/-- The concrete scenario for the dispatch-loop claim: an authorized message
whose processing rejects, followed by another authorized message. -/
def stallTrace : List QEvent :=
  [.arrive (some "42") itemA, .finish, .arrive (some "42") itemB]

/-- A message carrying a single document attachment and nothing else. -/
def docOnlyMsg (fid : String) (fileName : Option String) : Msg :=
  ⟨none, none, [], some ⟨fid, fileName⟩, none, none, none, none, ⟨none, none, none⟩, none⟩

/-- A message carrying a single photo and nothing else. -/
def photoOnlyMsg (fids : List String) : Msg :=
  ⟨none, none, fids, none, none, none, none, none, ⟨none, none, none⟩, none⟩

/-- Environment for the display-name counterexample: the document download
succeeds, `Date.now()` is 1000 and the random token is `abc123`. -/
def cexEnv : ProcEnv :=
  ⟨⟨1, 2, 3⟩, ⟨7, ⟨9, by decide⟩⟩,
   ⟨0, [], .success⟩,
   ⟨1000, [⟨10, by decide⟩, ⟨11, by decide⟩, ⟨12, by decide⟩,
           ⟨1, by decide⟩, ⟨2, by decide⟩, ⟨3, by decide⟩], .success⟩,
   ⟨0, [], .success⟩, ⟨0, [], .success⟩, ⟨0, [], .success⟩, ⟨0, [], .success⟩,
   true, true⟩

/-- The decidable matcher for the claimed stored-filename pattern
(one or more ASCII digits, an underscore, exactly six characters drawn from
lowercase letters and digits, an underscore, then the literal
`plan_v2.docx`).  Deterministic parsing is equivalent to the regex because
the character after the digit run must be the underscore. -/
def isTokenChar (c : Char) : Bool :=
  ('0' ≤ c && c ≤ '9') || ('a' ≤ c && c ≤ 'z')

/-- ASCII decimal digit test. -/
def isDigitChar (c : Char) : Bool :=
  '0' ≤ c && c ≤ '9'

/-- Matcher for the claimed pattern on stored document filenames generated
from the declared name `plan v2.docx`. -/
def matchesClaimPat (s : String) : Bool :=
  let cs := s.data
  let ds := cs.takeWhile isDigitChar
  let rest := cs.drop ds.length
  !ds.isEmpty &&
    (match rest with
     | '_' :: r₂ =>
       (r₂.take 6).length = 6 && (r₂.take 6).all isTokenChar &&
         decide (r₂.drop 6 = '_' :: "plan_v2.docx".data)
     | _ => false)

/-- Environment whose document download fails with a handled request error
and whose archive append succeeds. -/
def failEnv : ProcEnv :=
  ⟨⟨1, 2, 3⟩, ⟨7, ⟨9, by decide⟩⟩,
   ⟨0, [], .success⟩, ⟨1000, [], .requestError⟩,
   ⟨0, [], .success⟩, ⟨0, [], .success⟩, ⟨0, [], .success⟩, ⟨0, [], .success⟩,
   true, true⟩

/-- Environment whose archive append fails but whose reply succeeds. -/
def noWriteEnv : ProcEnv :=
  ⟨⟨1, 2, 3⟩, ⟨7, ⟨9, by decide⟩⟩,
   ⟨0, [], .success⟩, ⟨0, [], .success⟩, ⟨0, [], .success⟩,
   ⟨0, [], .success⟩, ⟨0, [], .success⟩, ⟨0, [], .success⟩,
   false, true⟩

/-- Whether a `processMessage` run completed normally. -/
def isOkOutcome : PMOutcome → Bool
  | .ok _ _ => true
  | .thrown _ _ => false
  | .hung => false

/-- Merging two adjacent constant segments inside a string concatenation. -/
theorem sapp_cc (a b c : String) (h : a ++ b = c) (x : String) :
    a ++ (b ++ x) = c ++ x := by
  rw [← String.append_assoc, h]

/-- A nonempty string is truthy. -/
theorem jsTruthy_some_of_ne {t : String} (h : t ≠ "") : jsTruthy (some t) = true := by
  have he : t.isEmpty = false := by
    rw [Bool.eq_false_iff]
    simpa [String.isEmpty_iff] using h
  simp [jsTruthy, he]

/-- Every character `Nat.toDigitsCore 10` adds in front of an all-digit
accumulator is an ASCII digit. -/
theorem toDigitsCore_digits :
    ∀ (f n : Nat) (acc : List Char), (∀ c ∈ acc, isDigitChar c = true) →
      ∀ c ∈ Nat.toDigitsCore 10 f n acc, isDigitChar c = true := by
  intro f
  induction f with
  | zero => intro n acc hacc; simpa [Nat.toDigitsCore] using hacc
  | succ f ih =>
    intro n acc hacc c hc
    have hdig : isDigitChar (Nat.digitChar (n % 10)) = true := by
      have h10 : n % 10 < 10 := Nat.mod_lt _ (by decide)
      interval_cases h : n % 10 <;> decide
    rw [Nat.toDigitsCore] at hc
    by_cases hz : n / 10 = 0
    · simp only [hz, if_true] at hc
      rcases List.mem_cons.mp hc with h | h
      · exact h ▸ hdig
      · exact hacc c h
    · simp only [hz, if_false] at hc
      refine ih (n / 10) (Nat.digitChar (n % 10) :: acc) ?_ c hc
      intro d hd
      rcases List.mem_cons.mp hd with h | h
      · exact h ▸ hdig
      · exact hacc d h

/-- `Nat.toDigitsCore` never empties a nonempty accumulator. -/
theorem toDigitsCore_ne_nil :
    ∀ (f n : Nat) (acc : List Char), acc ≠ [] → Nat.toDigitsCore 10 f n acc ≠ [] := by
  intro f
  induction f with
  | zero => intro n acc h; simpa [Nat.toDigitsCore] using h
  | succ f ih =>
    intro n acc h
    rw [Nat.toDigitsCore]
    by_cases hz : n / 10 = 0
    · simp [hz]
    · simpa [hz] using ih (n / 10) (Nat.digitChar (n % 10) :: acc) (by simp)

/-- Every character of the decimal rendering of a natural number is an
ASCII digit. -/
theorem repr_data_digits (n : Nat) : ∀ c ∈ (Nat.repr n).data, isDigitChar c = true := by
  intro c hc
  have : (Nat.repr n).data = Nat.toDigitsCore 10 (n + 1) n [] := rfl
  rw [this] at hc
  exact toDigitsCore_digits (n + 1) n [] (by simp) c hc

/-- The decimal rendering of a natural number is nonempty. -/
theorem repr_data_ne_nil (n : Nat) : (Nat.repr n).data ≠ [] := by
  have : (Nat.repr n).data = Nat.toDigitsCore 10 (n + 1) n [] := rfl
  rw [this, Nat.toDigitsCore]
  by_cases hz : n / 10 = 0
  · simp [hz]
  · simpa [hz] using toDigitsCore_ne_nil n (n / 10) [Nat.digitChar (n % 10)] (by simp)

/-- `takeWhile` over an append whose first part satisfies the predicate and
whose continuation starts with a failing element. -/
theorem takeWhile_app_all {p : Char → Bool} {l₁ : List Char} {x : Char} (r : List Char)
    (h₁ : ∀ c ∈ l₁, p c = true) (h₂ : p x = false) :
    (l₁ ++ x :: r).takeWhile p = l₁ := by
  induction l₁ with
  | nil => simp [List.takeWhile, h₂]
  | cons a l ih =>
    have ha : p a = true := h₁ a (by simp)
    simp only [List.cons_append, List.takeWhile_cons, ha, if_true]
    rw [ih (fun c hc => h₁ c (by simp [hc]))]

/-- Authorized arrivals of a trace split at its first event. -/
theorem arrivalsOf_cons (allowed : String) (e : QEvent) (es : List QEvent) :
    arrivalsOf allowed (e :: es) = arrivalsOf allowed [e] ++ arrivalsOf allowed es := by
  cases e with
  | arrive sender it => simp [arrivalsOf]
  | finish => simp [arrivalsOf]

/-- One dispatch transition preserves the queue invariant: the processed
items followed by the in-flight item and the buffered items always list the
authorized arrivals in order, an idle loop has nothing in flight, and the
effect log is the concatenation of the per-item effect blocks of the
processed items. -/
theorem qstep_inv (allowed : String) (s : QState) (e : QEvent)
    (h₁ : s.busy = false → s.inFlight = none)
    (h₂ : s.log = s.dones.flatMap itemEffects) :
    ((qstep allowed s e).dones ++ (qstep allowed s e).inFlight.toList
        ++ (qstep allowed s e).queue
      = s.dones ++ s.inFlight.toList ++ s.queue ++ arrivalsOf allowed [e])
    ∧ ((qstep allowed s e).busy = false → (qstep allowed s e).inFlight = none)
    ∧ ((qstep allowed s e).log = (qstep allowed s e).dones.flatMap itemEffects) := by
  cases e with
  | arrive sender it =>
    by_cases hs : sender = some allowed
    · simp only [qstep, hs, if_true, startDrain, arrivalsOf]
      by_cases hb : s.busy
      · simp [hb, h₂, List.append_assoc]
      · have hif : s.inFlight = none := h₁ (by simpa using hb)
        cases hq : s.queue with
        | nil => simp [hb, hq, hif, h₂]
        | cons q qs => simp [hb, hq, hif, h₂, List.append_assoc]
    · have hq : qstep allowed s (QEvent.arrive sender it) = s := by simp [qstep, hs]
      rw [hq]
      refine ⟨?_, h₁, h₂⟩
      simp [arrivalsOf, hs]
  | finish =>
    cases hf : s.inFlight with
    | none =>
      have hq : qstep allowed s QEvent.finish = s := by simp [qstep, hf]
      rw [hq]
      refine ⟨?_, h₁, h₂⟩
      simp [arrivalsOf, hf]
    | some it =>
      have hb : s.busy = true := by
        by_contra hb
        have hn := h₁ (by simpa using hb)
        rw [hf] at hn
        cases hn
      have harr : arrivalsOf allowed [QEvent.finish] = [] := by simp [arrivalsOf]
      cases hp : processMessage it.msg it.env with
      | hung =>
        have hq : qstep allowed s QEvent.finish = s := by simp [qstep, hf, hp]
        rw [hq]
        refine ⟨?_, h₁, h₂⟩
        simp [arrivalsOf, hf]
      | ok f fx =>
        have he : itemEffects it = fx := by simp [itemEffects, effsOf, hp]
        cases hq : s.queue with
        | nil => simp [qstep, hf, hp, hq, harr, h₂, ← he]
        | cons q qs => simp [qstep, hf, hp, hq, hb, harr, h₂, ← he]
      | thrown f fx =>
        have he : itemEffects it = fx := by simp [itemEffects, effsOf, hp]
        simp [qstep, hf, hp, hb, harr, h₂, ← he]

/-- Trace-level accumulation of the queue invariant. -/
theorem runTrace_inv (allowed : String) :
    ∀ (tr : List QEvent) (s : QState),
      (s.busy = false → s.inFlight = none) →
      s.log = s.dones.flatMap itemEffects →
      ((runTrace allowed s tr).dones ++ (runTrace allowed s tr).inFlight.toList
          ++ (runTrace allowed s tr).queue
        = s.dones ++ s.inFlight.toList ++ s.queue ++ arrivalsOf allowed tr)
      ∧ ((runTrace allowed s tr).busy = false → (runTrace allowed s tr).inFlight = none)
      ∧ ((runTrace allowed s tr).log = (runTrace allowed s tr).dones.flatMap itemEffects) := by
  intro tr
  induction tr with
  | nil =>
    intro s h₁ h₂
    simp only [runTrace, arrivalsOf]
    exact ⟨by simp, h₁, h₂⟩
  | cons e es ih =>
    intro s h₁ h₂
    obtain ⟨g₁, g₂, g₃⟩ := qstep_inv allowed s e h₁ h₂
    obtain ⟨r₁, r₂, r₃⟩ := ih (qstep allowed s e) g₂ g₃
    refine ⟨?_, ?_, ?_⟩
    · show (runTrace allowed (qstep allowed s e) es).dones
          ++ (runTrace allowed (qstep allowed s e) es).inFlight.toList
          ++ (runTrace allowed (qstep allowed s e) es).queue
        = s.dones ++ s.inFlight.toList ++ s.queue ++ arrivalsOf allowed (e :: es)
      rw [r₁, g₁, arrivalsOf_cons allowed e es]
      simp [List.append_assoc]
    · exact r₂
    · exact r₃

/-- Once the drain loop has aborted — `isProcessing` is still set but
nothing is in flight — no event can ever process another message: arrivals
only buffer (the `processQueue` call returns at its guard) and there is no
pending promise whose settlement could restart the loop. -/
theorem stalled_frozen (allowed : String) :
    ∀ (tr : List QEvent) (s : QState), s.busy = true → s.inFlight = none →
      (runTrace allowed s tr).dones = s.dones
      ∧ (runTrace allowed s tr).log = s.log
      ∧ (runTrace allowed s tr).busy = true
      ∧ (runTrace allowed s tr).inFlight = none := by
  intro tr
  induction tr with
  | nil =>
    intro s hb hf
    exact ⟨rfl, rfl, hb, hf⟩
  | cons e es ih =>
    intro s hb hf
    have hstep : (qstep allowed s e).dones = s.dones ∧ (qstep allowed s e).log = s.log
        ∧ (qstep allowed s e).busy = true ∧ (qstep allowed s e).inFlight = none := by
      cases e with
      | arrive sender it =>
        by_cases hs : sender = some allowed
        · simp [qstep, hs, startDrain, hb, hf]
        · simp [qstep, hs, hb, hf]
      | finish => simp [qstep, hf, hb]
    obtain ⟨d₁, l₁, b₁, f₁⟩ := hstep
    obtain ⟨rd, rl, rb, rf⟩ := ih (qstep allowed s e) b₁ f₁
    exact ⟨by rw [show runTrace allowed s (e :: es) = runTrace allowed (qstep allowed s e) es from rfl, rd, d₁],
           by rw [show runTrace allowed s (e :: es) = runTrace allowed (qstep allowed s e) es from rfl, rl, l₁],
           rb, rf⟩

/-- A download block only ever records fetch effects. -/
theorem dlStep_no_append {j : Job} {acc acc₂ : DlAcc}
    (h : dlStep j acc = some acc₂)
    (hn : ∀ p c, Effect.fileAppend p c ∉ acc.effs) :
    ∀ p c, Effect.fileAppend p c ∉ acc₂.effs := by
  unfold dlStep at h
  by_cases hp : j.pres
  · simp only [hp, if_true] at h
    cases hr : (downloadFile j.outcome j.fname).returned with
    | none => rw [hr] at h; cases h
    | some saved =>
      rw [hr] at h
      obtain rfl := Option.some.inj h
      intro p c hm
      simp only [List.mem_append, List.mem_singleton] at hm
      rcases hm with hm | hm
      · exact hn p c hm
      · cases hm
  · simp only [hp, if_false] at h
    obtain rfl := Option.some.inj h
    exact hn

/-- The whole download phase only ever records fetch effects. -/
theorem runJobs_no_append :
    ∀ (js : List Job) (acc acc₂ : DlAcc),
      runJobs js acc = some acc₂ → (∀ p c, Effect.fileAppend p c ∉ acc.effs) →
      ∀ p c, Effect.fileAppend p c ∉ acc₂.effs := by
  intro js
  induction js with
  | nil =>
    intro acc acc₂ h hn
    rw [runJobs] at h
    obtain rfl := Option.some.inj h
    exact hn
  | cons j js ih =>
    intro acc acc₂ h hn
    rw [runJobs] at h
    cases hd : dlStep j acc with
    | none => rw [hd] at h; cases h
    | some acc₁ =>
      rw [hd] at h
      exact ih acc₁ acc₂ h (dlStep_no_append hd hn)

/-- Any archive append a `processMessage` run performs targets the day file
of the processing-time local date. -/
theorem append_effect_path (msg : Msg) (env : ProcEnv) (p c : String)
    (h : Effect.fileAppend p c ∈ effsOf (processMessage msg env)) :
    p = getDayNotesFile env.procDate := by
  cases hr : runJobs (jobsOf msg env) ⟨[], []⟩ with
  | none => simp only [processMessage, hr, effsOf] at h; cases h
  | some acc =>
    simp only [processMessage, hr] at h
    have hacc : ∀ q d, Effect.fileAppend q d ∉ acc.effs :=
      runJobs_no_append _ _ _ hr (by simp)
    have hmid : Effect.fileAppend p c ∈
        acc.effs ++ (if env.appendOk = true then
          [Effect.fileAppend (getDayNotesFile env.procDate)
            ("\n---\n" ++ "**" ++ getTimestamp env.hms ++ "**" ++ formatForwardInfo msg.fwd
              ++ "\n\n" ++
              (if jsTruthy msg.text = true then msg.text.getD "" ++ "\n"
               else if jsTruthy msg.caption = true then msg.caption.getD "" ++ "\n" else "") ++
              (if acc.atts.isEmpty = true then ""
               else "\n**Attachments:**\n" ++ String.join (acc.atts.map attachmentLine)) ++
              "\n---\n" ++ "\n")]
        else []) := by
      by_cases hrep : env.replyOk = true
      · rw [if_pos hrep] at h
        simp only [effsOf] at h
        rcases List.mem_append.mp h with h | h
        · exact h
        · exact absurd (List.mem_singleton.mp h) (by intro hx; cases hx)
      · rw [if_neg hrep] at h
        simpa only [effsOf] using h
    rcases List.mem_append.mp hmid with h2 | h2
    · exact absurd h2 (hacc p c)
    · by_cases happ : env.appendOk = true
      · rw [if_pos happ] at h2
        have he := List.mem_singleton.mp h2
        cases he
        rfl
      · rw [if_neg happ] at h2
        cases h2

/-- The three-letter lowercase shape of every month abbreviation. -/
theorem monthAbbrev_shape :
    ∀ i : Fin 12, (monthAbbrev i).length = 3
      ∧ (monthAbbrev i).data.all (fun c => 'a' ≤ c && c ≤ 'z') = true := by
  decide

/-- C1: For every sequence of events, the processed messages followed by the
in-flight message and the still-buffered messages equal the authorized
arrivals in enqueue order — strict FIFO, nothing dropped or reordered, and
at most one message in flight since the in-flight slot is a single `Option`
the drain loop fills only after the previous `processMessage` settles — and
the global effect log is the concatenation of the per-message effect blocks
of the processed messages in that same order, so formatted fragments are
appended to the archive in enqueue order and the attachment fetches of two
different messages never interleave. -/
theorem queue_fifo_order (allowed : String) (tr : List QEvent) :
    (runTrace allowed initQState tr).dones ++ (runTrace allowed initQState tr).inFlight.toList
        ++ (runTrace allowed initQState tr).queue = arrivalsOf allowed tr
    ∧ (runTrace allowed initQState tr).log
        = (runTrace allowed initQState tr).dones.flatMap itemEffects := by
  obtain ⟨a, _b, c⟩ := runTrace_inv allowed tr initQState (fun _ => rfl) rfl
  refine ⟨?_, c⟩
  simpa [initQState] using a

/-- C2 counterexample: after the concrete trace in which processing of the
first authorized message rejects (its acknowledgment reply throws) and a
second authorized message arrives, no continuation of events ever processes
the second message — refuting the claim that a failure inside
`processMessage` leaves the dispatch loop running for later messages. -/
theorem queue_resume_cex :
    ¬ ∃ tr : List QEvent,
        itemB ∈ (runTrace "42" (runTrace "42" initQState stallTrace) tr).dones := by
  rintro ⟨tr, hmem⟩
  obtain ⟨hd, _hl, _hb, _hf⟩ :=
    stalled_frozen "42" tr (runTrace "42" initQState stallTrace) (by decide) (by decide)
  rw [hd] at hmem
  have hdone : (runTrace "42" initQState stallTrace).dones = [itemA] := by decide
  rw [hdone] at hmem
  exact absurd (List.mem_singleton.mp hmem) (by decide)

/-- C2 amended: per-attachment failures and archive-write failures are
contained inside `processMessage`, but an unexpected rejection of
`processMessage` itself (its only uncaught step is the acknowledgment
reply) terminates the drain loop without resetting `isProcessing`; from
then on no event can ever process another message, so every message
enqueued after the failing one stays buffered forever (until process
restart) instead of being processed. -/
theorem queue_stall_after_reject (allowed : String) (s : QState) (it : QItem)
    (f : String) (fx : List Effect) (tr : List QEvent)
    (hb : s.busy = true) (hf : s.inFlight = some it)
    (hp : processMessage it.msg it.env = .thrown f fx) :
    (runTrace allowed (qstep allowed s .finish) tr).dones = s.dones ++ [it]
    ∧ (runTrace allowed (qstep allowed s .finish) tr).log = s.log ++ fx
    ∧ (runTrace allowed (qstep allowed s .finish) tr).busy = true
    ∧ (runTrace allowed (qstep allowed s .finish) tr).inFlight = none := by
  have hq : qstep allowed s .finish =
      { queue := s.queue, busy := s.busy, inFlight := none,
        dones := s.dones ++ [it], log := s.log ++ fx } := by
    simp [qstep, hf, hp]
  obtain ⟨d, l, b, fl⟩ :=
    stalled_frozen allowed tr (qstep allowed s .finish) (by rw [hq]; exact hb) (by rw [hq])
  exact ⟨by rw [d, hq], by rw [l, hq], b, fl⟩

/-- Witness for the amended dispatch-stall theorem at a concrete state. -/
theorem queue_stall_after_reject_witness :
    (runTrace "42" (qstep "42" ⟨[], true, some itemA, [], []⟩ .finish) []).dones = [itemA]
    ∧ (runTrace "42" (qstep "42" ⟨[], true, some itemA, [], []⟩ .finish) []).log
        = [Effect.fileAppend "notes/7-oct.md" "\n---\n**01:02:03**\n\nfirst\n\n---\n\n"]
    ∧ (runTrace "42" (qstep "42" ⟨[], true, some itemA, [], []⟩ .finish) []).busy = true
    ∧ (runTrace "42" (qstep "42" ⟨[], true, some itemA, [], []⟩ .finish) []).inFlight = none := by
  have h := queue_stall_after_reject "42" ⟨[], true, some itemA, [], []⟩ itemA
    "\n---\n**01:02:03**\n\nfirst\n\n---\n"
    [Effect.fileAppend "notes/7-oct.md" "\n---\n**01:02:03**\n\nfirst\n\n---\n\n"]
    [] rfl rfl (by decide)
  simpa using h

/-- C7: an inbound event whose sender identity is absent or differs from the
configured allowed identity is dropped before enqueue with no state change
at all — nothing is buffered, no processing starts, no file is touched, no
fetch happens, and no reply is sent (the effect log is part of the state). -/
theorem unauthorized_drop (allowed : String) (s : QState) (sender : Option String)
    (it : QItem) (h : sender ≠ some allowed) :
    qstep allowed s (.arrive sender it) = s := by
  simp [qstep, h]

/-- Witness for the unauthorized-drop theorem: a mismatched sender and an
absent sender, both at the initial state. -/
theorem unauthorized_drop_witness :
    qstep "42" initQState (.arrive (some "99") itemA) = initQState
    ∧ qstep "42" initQState (.arrive none itemA) = initQState :=
  ⟨unauthorized_drop "42" initQState (some "99") itemA (by decide),
   unauthorized_drop "42" initQState none itemA (by decide)⟩

/-- C9: when the archive append fails (and the downloads all settle), the
failure is swallowed inside `appendToNotes` — the run still completes
normally, no append effect is recorded, and the acknowledgment reply is
still sent to the sender. -/
theorem ack_after_failed_write (msg : Msg) (env : ProcEnv)
    (hA : env.appendOk = false) (hR : env.replyOk = true)
    (hC : (runJobs (jobsOf msg env) ⟨[], []⟩).isSome = true) :
    isOkOutcome (processMessage msg env) = true
    ∧ Effect.reply "✅ Saved to notes!" ∈ effsOf (processMessage msg env)
    ∧ ∀ p c, Effect.fileAppend p c ∉ effsOf (processMessage msg env) := by
  obtain ⟨acc, hr⟩ := Option.isSome_iff_exists.mp hC
  have hacc := runJobs_no_append _ _ _ hr (by simp)
  refine ⟨?_, ?_, ?_⟩
  · simp [processMessage, hr, hA, hR, isOkOutcome]
  · simp [processMessage, hr, hA, hR, effsOf]
  · intro p c hm
    simp only [processMessage, hr, hA, hR, effsOf] at hm
    simp at hm
    exact hacc p c hm

/-- Witness for the acknowledgment-after-failed-write theorem. -/
theorem ack_after_failed_write_witness :
    isOkOutcome (processMessage (textOnlyMsg "x") noWriteEnv) = true
    ∧ Effect.reply "✅ Saved to notes!" ∈ effsOf (processMessage (textOnlyMsg "x") noWriteEnv)
    ∧ ∀ p c, Effect.fileAppend p c ∉ effsOf (processMessage (textOnlyMsg "x") noWriteEnv) :=
  ack_after_failed_write (textOnlyMsg "x") noWriteEnv rfl rfl (by decide)

/-- C10: the day-file path is a pure function of the processing-time local
calendar date — two messages processed on the same local date append to the
same single path, whatever their own embedded timestamps and payloads — and
that path is `notes/⟨day⟩-⟨month⟩.md` with a three-letter lowercase month
abbreviation. -/
theorem dayfile_same_day (m₁ : Msg) (e₁ : ProcEnv) (m₂ : Msg) (e₂ : ProcEnv)
    (p₁ c₁ p₂ c₂ : String)
    (hd : e₁.procDate = e₂.procDate)
    (h₁ : Effect.fileAppend p₁ c₁ ∈ effsOf (processMessage m₁ e₁))
    (h₂ : Effect.fileAppend p₂ c₂ ∈ effsOf (processMessage m₂ e₂)) :
    p₁ = p₂
    ∧ p₁ = "notes/" ++ Nat.repr e₁.procDate.day ++ "-"
        ++ monthAbbrev e₁.procDate.month ++ ".md"
    ∧ (monthAbbrev e₁.procDate.month).length = 3
    ∧ (monthAbbrev e₁.procDate.month).data.all (fun c => 'a' ≤ c && c ≤ 'z') = true := by
  have q₁ := append_effect_path m₁ e₁ p₁ c₁ h₁
  have q₂ := append_effect_path m₂ e₂ p₂ c₂ h₂
  obtain ⟨ml, mc⟩ := monthAbbrev_shape e₁.procDate.month
  refine ⟨?_, ?_, ml, mc⟩
  · rw [q₁, q₂, hd]
  · rw [q₁]; rfl

/-- Witness for the day-file theorem: two concrete messages with different
texts and embedded timestamps processed on the same local date. -/
theorem dayfile_same_day_witness :
    ("notes/7-oct.md" : String) = "notes/7-oct.md"
    ∧ ("notes/7-oct.md" : String) = "notes/" ++ Nat.repr (plainEnv true).procDate.day ++ "-"
        ++ monthAbbrev (plainEnv true).procDate.month ++ ".md"
    ∧ (monthAbbrev (plainEnv true).procDate.month).length = 3
    ∧ (monthAbbrev (plainEnv true).procDate.month).data.all (fun c => 'a' ≤ c && c ≤ 'z') = true :=
  dayfile_same_day (textOnlyMsg "x") (plainEnv true) (textOnlyMsg "y") (plainEnv true)
    "notes/7-oct.md" "\n---\n**01:02:03**\n\nx\n\n---\n\n"
    "notes/7-oct.md" "\n---\n**01:02:03**\n\ny\n\n---\n\n"
    rfl (by decide) (by decide)

/-- `padStart(2, '0')` yields exactly two characters for values below 100
(all `Date#getHours` / `getMinutes` / `getSeconds` results). -/
theorem pad2_len (n : Nat) (h : n < 100) : (pad2 n).length = 2 := by
  have hle : (Nat.repr n).length ≤ 2 := Nat.repr_length n 2 (by decide) (by simpa using h)
  have hge : 1 ≤ (Nat.repr n).length := by
    have hne := repr_data_ne_nil n
    have : (Nat.repr n).data.length ≠ 0 := by
      intro hz
      exact hne (List.length_eq_zero.mp hz)
    have hlen : (Nat.repr n).length = (Nat.repr n).data.length := rfl
    omega
  simp only [pad2]
  by_cases hlt : (Nat.repr n).length < 2
  · simp only [hlt, if_true, String.length_append]
    have : (("0" : String)).length = 1 := rfl
    omega
  · simp only [hlt, if_false]
    omega

/-- The six download blocks do nothing for a message with no media. -/
theorem runJobs_text_only (t : String) (env : ProcEnv) :
    runJobs (jobsOf (textOnlyMsg t) env) ⟨[], []⟩ = some ⟨[], []⟩ := by
  simp [runJobs, jobsOf, dlStep, textOnlyMsg]

/-- C5: a message containing only (nonempty) text and no forward provenance
formats to exactly the fragment
separator, bold zero-padded `HH:MM:SS`, blank line, the text, blank line,
separator — with no Attachments section and no forwarded annotation. -/
theorem text_only_fragment (t : String) (env : ProcEnv) (h m s : Nat)
    (ht : t ≠ "") (he : env.hms = ⟨h, m, s⟩)
    (hh : h < 24) (hm60 : m < 60) (hs60 : s < 60) :
    fragmentOf (processMessage (textOnlyMsg t) env)
      = some ("\n---\n**" ++ pad2 h ++ ":" ++ pad2 m ++ ":" ++ pad2 s ++ "**\n\n"
          ++ t ++ "\n\n---\n")
    ∧ (pad2 h).length = 2 ∧ (pad2 m).length = 2 ∧ (pad2 s).length = 2 := by
  refine ⟨?_, pad2_len h (by omega), pad2_len m (by omega), pad2_len s (by omega)⟩
  have htr : jsTruthy (some t) = true := jsTruthy_some_of_ne ht
  have h1 : (textOnlyMsg t).text = some t := rfl
  have h2 : (textOnlyMsg t).caption = none := rfl
  have h3 : (textOnlyMsg t).fwd = ⟨none, none, none⟩ := rfl
  have hfrag : fragmentOf (processMessage (textOnlyMsg t) env)
      = some ("\n---\n**" ++ getTimestamp env.hms ++ "**" ++ "\n\n"
          ++ (t ++ "\n") ++ "\n---\n") := by
    by_cases hrep : env.replyOk = true <;>
      simp [processMessage, runJobs_text_only, h1, h2, h3, htr, hrep,
        fragmentOf, formatForwardInfo]
  rw [hfrag, he]
  simp only [getTimestamp, String.append_assoc]
  rw [show ("\n" ++ "\n---\n" : String) = "\n\n---\n" from rfl,
      sapp_cc "**" "\n\n" "**\n\n" rfl]

/-- Witness for the text-only fragment theorem. -/
theorem text_only_fragment_witness :
    fragmentOf (processMessage (textOnlyMsg "hi") (plainEnv true))
      = some ("\n---\n**" ++ pad2 1 ++ ":" ++ pad2 2 ++ ":" ++ pad2 3 ++ "**\n\n"
          ++ "hi" ++ "\n\n---\n")
    ∧ (pad2 1).length = 2 ∧ (pad2 2).length = 2 ∧ (pad2 3).length = 2 :=
  text_only_fragment "hi" (plainEnv true) 1 2 3 (by decide) rfl
    (by decide) (by decide) (by decide)

/-- C6: for well-formed forward metadata, the annotation produced by
`formatForwardInfo` — which `processMessage` appends directly after the
bolded timestamp — is exactly ` - Forwarded from X` with `X` resolved by
the precedence named user > named chat > free-text sender name, and for a
named user `X` is `@username` when the username is present, else the first
name; with no provenance the annotation is empty. -/
theorem forward_annotation (fm : ForwardMeta) (hwf : forwardWF fm = true) :
    formatForwardInfo fm =
      match provenanceDisplaySpec fm with
      | some x => " - Forwarded from " ++ x
      | none => "" := by
  obtain ⟨ff, fc, fs⟩ := fm
  cases ff with
  | some u =>
    obtain ⟨un, fn⟩ := u
    cases un with
    | some name =>
      have hne : name ≠ "" := by
        simp [forwardWF] at hwf
        intro hx
        exact hwf.1.1 (by rw [hx])
      simp [formatForwardInfo, provenanceDisplaySpec, jsTruthy_some_of_ne hne]
    | none =>
      have hfn : ∃ f, fn = some f := by
        simp [forwardWF] at hwf
        exact Option.isSome_iff_exists.mp hwf.1.1
      obtain ⟨f, rfl⟩ := hfn
      simp [formatForwardInfo, provenanceDisplaySpec, jsTruthy, jsUndef]
  | none =>
    cases fc with
    | some c =>
      obtain ⟨title⟩ := c
      have ht : ∃ x, title = some x := by
        simp [forwardWF] at hwf
        exact Option.isSome_iff_exists.mp hwf.1
      obtain ⟨x, rfl⟩ := ht
      simp [formatForwardInfo, provenanceDisplaySpec, jsUndef]
    | none =>
      cases fs with
      | some sn =>
        have hne : sn ≠ "" := by
          simp [forwardWF] at hwf
          intro hx
          exact hwf (by rw [hx])
        have : sn.isEmpty = false := by
          rw [Bool.eq_false_iff]
          simpa [String.isEmpty_iff] using hne
        simp [formatForwardInfo, provenanceDisplaySpec, this]
      | none => simp [formatForwardInfo, provenanceDisplaySpec]

/-- Witness for the forward-annotation theorem: all three provenance fields
populated, resolved to the handle of the named user. -/
theorem forward_annotation_witness :
    formatForwardInfo ⟨some ⟨some "alice", some "Alice"⟩, some ⟨some "News"⟩, some "Bob"⟩
      = " - Forwarded from @alice" := by
  have h := forward_annotation
    ⟨some ⟨some "alice", some "Alice"⟩, some ⟨some "News"⟩, some "Bob"⟩ (by decide)
  simpa [provenanceDisplaySpec] using h

/-- Every base-36 digit character is in the claimed token class. -/
theorem base36Char_token : ∀ d : Fin 36, isTokenChar (base36Char d) = true := by
  decide

/-- C3 counterexample: `Math.random()` can return `0.0625`, whose base-36
rendering is `0.29`, so `substring(2, 8)` yields the two-character token
`29`; with `Date.now() = 1000` the stored filename generated for the
declared name `plan v2.docx` is `1000_29_plan_v2.docx`, which does not
match the claimed pattern requiring exactly six token characters. -/
theorem stored_name_pattern_cex :
    matchesClaimPat (docFileName 1000 [⟨2, by decide⟩, ⟨9, by decide⟩] (some "plan v2.docx"))
      = false := by
  decide

/-- C3 amended: for a document with declared filename `plan v2.docx`, the
generated stored filename is the millisecond timestamp, an underscore, a
random token of at most six characters from lowercase letters and digits,
an underscore, then `plan_v2` (every character outside the alphanumeric
class replaced by `_`) and the declared extension `.docx`; it matches the
claimed pattern (with exactly six token characters) whenever the random
base-36 rendering of the value has at least six fractional digits — the generic
case — but not in general. -/
theorem stored_name_pattern_amended (ts : Nat) (rand : List (Fin 36))
    (h6 : 6 ≤ rand.length) :
    matchesClaimPat (docFileName ts rand (some "plan v2.docx")) = true := by
  have hname : docFileName ts rand (some "plan v2.docx")
      = Nat.repr ts ++ "_" ++ randToken rand ++ "_" ++ "plan_v2" ++ ".docx" := rfl
  have hdata : (Nat.repr ts ++ "_" ++ randToken rand ++ "_" ++ "plan_v2" ++ ".docx").data
      = (Nat.repr ts).data ++ '_' :: ((randToken rand).data ++ '_' :: "plan_v2.docx".data) := by
    simp only [String.data_append, List.append_assoc]
    rfl
  have hlen : (randToken rand).data.length = 6 := by
    show ((rand.map base36Char).take 6).length = 6
    rw [List.length_take, List.length_map]
    omega
  have htw : ((Nat.repr ts).data
        ++ '_' :: ((randToken rand).data ++ '_' :: "plan_v2.docx".data)).takeWhile isDigitChar
      = (Nat.repr ts).data :=
    takeWhile_app_all _ (repr_data_digits ts) (by decide)
  have hne : (Nat.repr ts).data.isEmpty = false := by
    cases hc : (Nat.repr ts).data with
    | nil => exact absurd hc (repr_data_ne_nil ts)
    | cons a l => rfl
  have htake : ((randToken rand).data ++ '_' :: "plan_v2.docx".data).take 6
      = (randToken rand).data :=
    List.take_left' hlen
  have hdrop6 : ((randToken rand).data ++ '_' :: "plan_v2.docx".data).drop 6
      = '_' :: "plan_v2.docx".data :=
    List.drop_left' hlen
  have hall : (randToken rand).data.all isTokenChar = true := by
    rw [List.all_eq_true]
    intro c hc
    have hc₂ : c ∈ rand.map base36Char :=
      List.take_subset 6 (rand.map base36Char) hc
    obtain ⟨d, _, rfl⟩ := List.mem_map.mp hc₂
    exact base36Char_token d
  simp only [matchesClaimPat, hname, hdata, htw, hne]
  rw [List.drop_left]
  simp only [htake, hdrop6, hall, hlen]
  simp

/-- Witness for the amended stored-filename theorem: a six-digit random
token `abc123` and a realistic millisecond timestamp. -/
theorem stored_name_pattern_amended_witness :
    6 ≤ ([⟨10, by decide⟩, ⟨11, by decide⟩, ⟨12, by decide⟩,
          ⟨1, by decide⟩, ⟨2, by decide⟩, ⟨3, by decide⟩] : List (Fin 36)).length
    ∧ matchesClaimPat (docFileName 1700000000000
        [⟨10, by decide⟩, ⟨11, by decide⟩, ⟨12, by decide⟩,
         ⟨1, by decide⟩, ⟨2, by decide⟩, ⟨3, by decide⟩] (some "plan v2.docx")) = true :=
  ⟨by decide,
   stored_name_pattern_amended 1700000000000
     [⟨10, by decide⟩, ⟨11, by decide⟩, ⟨12, by decide⟩,
      ⟨1, by decide⟩, ⟨2, by decide⟩, ⟨3, by decide⟩] (by decide)⟩

/-- C4 counterexample: a document with no declared filename, fetched
successfully with `Date.now() = 1000` and random token `abc123`, renders
with display name `document` — the fallback base name — rather than the
generated stored filename `1000_abc123_document.bin` the claim requires
when no declared name exists. -/
theorem display_name_cex :
    fragmentOf (processMessage (docOnlyMsg "fidX" none) cexEnv)
      = some "\n---\n**01:02:03**\n\n\n**Attachments:**\n- [document](../attachments/1000_abc123_document.bin) _(Document)_\n\n---\n"
    ∧ ("\n---\n**01:02:03**\n\n\n**Attachments:**\n- [document](../attachments/1000_abc123_document.bin) _(Document)_\n\n---\n" : String)
      ≠ "\n---\n**01:02:03**\n\n\n**Attachments:**\n- [1000_abc123_document.bin](../attachments/1000_abc123_document.bin) _(Document)_\n\n---\n" := by
  exact ⟨by decide, by decide⟩

/-- C4 amended: the display name rendered for an attachment is the original
declared filename when the source provided one; otherwise, for kinds with a
declared-name field (documents, audio), it is the fallback base name
(`document` / `audio`) used to build the stored name; only kinds without a
declared-name field (photo, video, voice, video note) display the generated
stored filename. -/
theorem display_name_amended :
    (∀ (fid fn : String) (env : ProcEnv), fn ≠ "" → env.docE.outcome = .success →
      attsOf (docOnlyMsg fid (some fn)) env
        = some [⟨docFileName env.docE.nowMs env.docE.rand (some fn), "Document", some fn⟩]
      ∧ ∀ nm : String, attachmentLine ⟨nm, "Document", some fn⟩
          = "- [" ++ fn ++ "](../attachments/" ++ nm ++ ") _(Document)_\n")
    ∧ (∀ (fid : String) (env : ProcEnv), env.docE.outcome = .success →
      attsOf (docOnlyMsg fid none) env
        = some [⟨docFileName env.docE.nowMs env.docE.rand none, "Document", some "document"⟩]
      ∧ ∀ nm : String, attachmentLine ⟨nm, "Document", some "document"⟩
          = "- [document](../attachments/" ++ nm ++ ") _(Document)_\n")
    ∧ (∀ (fid : String) (env : ProcEnv), env.photoE.outcome = .success →
      attsOf (photoOnlyMsg [fid]) env
        = some [⟨generateFileName env.photoE.nowMs env.photoE.rand "photo" ".jpg", "Photo", none⟩]
      ∧ ∀ nm : String, attachmentLine ⟨nm, "Photo", none⟩
          = "![" ++ nm ++ "](../attachments/" ++ nm ++ ")\n") := by
  refine ⟨?_, ?_, ?_⟩
  · intro fid fn env hfn hoc
    constructor
    · simp [attsOf, runJobs, jobsOf, dlStep, docOnlyMsg, hoc, downloadFile,
        jsOrOpt, jsTruthy_some_of_ne hfn]
    · intro nm
      simp only [attachmentLine, jsOrOpt, jsTruthy_some_of_ne hfn, if_true, Option.getD]
      simp only [String.append_assoc]
      rw [sapp_cc ") _(" "Document" ") _(Document" rfl]
      rfl
  · intro fid env hoc
    constructor
    · simp [attsOf, runJobs, jobsOf, dlStep, docOnlyMsg, hoc, downloadFile,
        jsOrOpt, jsTruthy, docBase]
    · intro nm
      simp only [attachmentLine, jsOrOpt,
        show jsTruthy (some "document") = true from rfl, if_true, Option.getD]
      simp only [String.append_assoc]
      rw [sapp_cc ") _(" "Document" ") _(Document" rfl,
          sapp_cc "document" "](../attachments/" "document](../attachments/" rfl,
          sapp_cc "document" "](../attachments/" "document](../attachments/" rfl,
          sapp_cc "- [" "document](../attachments/" "- [document](../attachments/" rfl]
      rfl
  · intro fid env hoc
    constructor
    · simp [attsOf, runJobs, jobsOf, dlStep, photoOnlyMsg, hoc, downloadFile]
    · intro nm
      rfl

/-- Witness for the amended display-name theorem: a document with declared
name `a.txt` downloaded successfully. -/
theorem display_name_amended_witness :
    attsOf (docOnlyMsg "f1" (some "a.txt")) cexEnv
      = some [⟨docFileName cexEnv.docE.nowMs cexEnv.docE.rand (some "a.txt"),
              "Document", some "a.txt"⟩]
    ∧ attachmentLine ⟨"n1", "Document", some "a.txt"⟩
        = "- [" ++ "a.txt" ++ "](../attachments/" ++ "n1" ++ ") _(Document)_\n" := by
  obtain ⟨ha, hb⟩ := display_name_amended.1 "f1" "a.txt" cexEnv (by decide) rfl
  exact ⟨ha, hb "n1"⟩

/-- C8 counterexample: a filesystem error surfacing as an `error` event on
the destination write stream has no listener in `downloadFile`, so the call
neither returns `null` nor removes the partially written file — refuting
the claim that every fetch failure (including filesystem errors) returns
none with the partial file removed. -/
theorem fetch_failure_cex :
    downloadFile .streamError "x.bin" = ⟨none, true⟩
    ∧ downloadFile .streamError "x.bin" ≠ ⟨some none, false⟩ := by
  exact ⟨rfl, by decide⟩

/-- C8 amended: for the failures the source actually handles — resolution
failure, a synchronous throw while opening the destination, and an `error`
event on the https request — the fetch returns none with no file left on
disk, and the failure never propagates: a message whose only attachment
fetch fails this way is still formatted (with no Attachments section) and
still appended to the day file.  An `error` event on the destination write
stream, however, is unhandled and is not converted to none. -/
theorem fetch_failure_amended :
    (∀ fn : String,
      downloadFile .resolveFail fn = ⟨some none, false⟩
      ∧ downloadFile .syncThrow fn = ⟨some none, false⟩
      ∧ downloadFile .requestError fn = ⟨some none, false⟩)
    ∧ (∀ (fid : String) (fn : Option String) (env : ProcEnv),
        env.docE.outcome = .requestError → env.appendOk = true →
        attsOf (docOnlyMsg fid fn) env = some []
        ∧ fragmentOf (processMessage (docOnlyMsg fid fn) env)
            = some ("\n---\n**" ++ getTimestamp env.hms ++ "**\n\n\n---\n")
        ∧ Effect.fileAppend (getDayNotesFile env.procDate)
              ("\n---\n**" ++ getTimestamp env.hms ++ "**\n\n\n---\n\n")
            ∈ effsOf (processMessage (docOnlyMsg fid fn) env)) := by
  refine ⟨fun fn => ⟨rfl, rfl, rfl⟩, ?_⟩
  intro fid fn env h1 h2
  have p1 : (docOnlyMsg fid fn).text = none := rfl
  have p2 : (docOnlyMsg fid fn).caption = none := rfl
  have p3 : (docOnlyMsg fid fn).fwd = ⟨none, none, none⟩ := rfl
  have hjobs : runJobs (jobsOf (docOnlyMsg fid fn) env) ⟨[], []⟩
      = some ⟨[], [Effect.fetch fid]⟩ := by
    simp [runJobs, jobsOf, dlStep, docOnlyMsg, h1, downloadFile]
  refine ⟨by simp [attsOf, hjobs], ?_, ?_⟩
  · have hfrag : fragmentOf (processMessage (docOnlyMsg fid fn) env)
        = some ("\n---\n**" ++ getTimestamp env.hms ++ "**" ++ "\n\n" ++ "\n---\n") := by
      by_cases hrep : env.replyOk = true <;>
        simp [processMessage, hjobs, p1, p2, p3, hrep, fragmentOf, formatForwardInfo, jsTruthy]
    rw [hfrag]
    simp only [String.append_assoc]
    rfl
  · have heffs : effsOf (processMessage (docOnlyMsg fid fn) env)
        = [Effect.fetch fid,
           Effect.fileAppend (getDayNotesFile env.procDate)
             ("\n---\n**" ++ getTimestamp env.hms ++ "**" ++ "\n\n" ++ "\n---\n" ++ "\n")]
          ++ (if env.replyOk = true then [Effect.reply "✅ Saved to notes!"] else []) := by
      by_cases hrep : env.replyOk = true <;>
        simp [processMessage, hjobs, p1, p2, p3, hrep, h2, effsOf, formatForwardInfo, jsTruthy]
    rw [heffs]
    have hc : ("\n---\n**" ++ getTimestamp env.hms ++ "**" ++ "\n\n" ++ "\n---\n" ++ "\n")
        = ("\n---\n**" ++ getTimestamp env.hms ++ "**\n\n\n---\n\n") := by
      simp only [String.append_assoc]
      rfl
    rw [hc]
    simp

/-- Witness for the amended fetch-failure theorem: a handled request error
on the only attachment of a document message. -/
theorem fetch_failure_amended_witness :
    downloadFile .resolveFail "a.bin" = ⟨some none, false⟩
    ∧ attsOf (docOnlyMsg "f1" none) failEnv = some []
    ∧ fragmentOf (processMessage (docOnlyMsg "f1" none) failEnv)
        = some ("\n---\n**" ++ getTimestamp failEnv.hms ++ "**\n\n\n---\n") := by
  obtain ⟨ha, hb, _⟩ := fetch_failure_amended.2 "f1" none failEnv rfl rfl
  exact ⟨(fetch_failure_amended.1 "a.bin").1, ha, hb⟩
